import Mathlib

/-!
# Verification of the response-cache core of `src/middlewares/cache.ts`

Shallow embedding of the caching middleware of the Anime-API repository:
the cache-key derivation (`AdvancedCache.generateCacheKey`), the request
middleware (`AdvancedCache.middleware`), the in-process store adapter
(`NodeCacheAdapter` over `node-cache`), the networked store adapter
(`RedisCacheAdapter`), and the invalidation operation
(`AdvancedCache.clearCache`).

Modelling conventions:
* JS strings are Lean `String`s; query/body parameter values and header
  values are modelled as strings (Express delivers query parameters as
  strings; the claims under study do not depend on nested values).
* A JS object used as a string-keyed record is an ordered association
  list `List (String × String)`; its enumeration order is the JS
  key-insertion order that `Object.keys`/`JSON.stringify` observe.
* `JSON.stringify` on such a record is `serializeObj` below: entries in
  enumeration order, keys and values quoted with JSON string escaping.
  Control characters outside the named JSON escapes are passed through
  (they take the `\uXXXX` form in real JSON.stringify; no claim depends
  on them).
* `Math.ceil(n * 0.1)` on a key count `n` is `(n + 9) / 10` in `Nat`:
  for every attainable count the floating-point product `n * 0.1` rounds
  to a value whose ceiling is exactly `⌈n/10⌉`.
* Fallible JS operations are `Except`-valued; a `try/catch` is a `match`
  on that `Except`.
-/

namespace AnimeApi

/- A JSON-style payload value, used for cached response bodies
(arrays and objects carry their children through the mutual types
`JList` / `JFields`). -/
mutual

inductive JVal where
  | jnull
  | jbool (b : Bool)
  | jnum (n : Int)
  | jstr (s : String)
  | jarr (xs : JList)
  | jobj (fields : JFields)
deriving DecidableEq

inductive JList where
  | nil
  | cons (v : JVal) (t : JList)
deriving DecidableEq

inductive JFields where
  | nil
  | cons (k : String) (v : JVal) (t : JFields)
deriving DecidableEq

end

/-- JavaScript truthiness of a `JVal`: `null`, `false`, `0` and `""` are
falsy; every array or object (even empty) is truthy. -/
def JVal.truthy : JVal → Bool
  | .jnull => false
  | .jbool b => b
  | .jnum n => n != 0
  | .jstr s => s != ""
  | .jarr _ => true
  | .jobj _ => true

/-- The characters `JSON.stringify` escapes with a named escape. -/
def isEscCh (c : Char) : Bool :=
  c = '"' || c = '\\' || c = '\n' || c = '\t' || c = '\r' || c = '\x08' || c = '\x0c'

/-- The character that follows the backslash in the named escape. -/
def escCode (c : Char) : Char :=
  if c = '"' then '"'
  else if c = '\\' then '\\'
  else if c = '\n' then 'n'
  else if c = '\t' then 't'
  else if c = '\r' then 'r'
  else if c = '\x08' then 'b'
  else 'f'

/-- JSON string escaping of one character (the named escapes of
`JSON.stringify`; other characters are emitted verbatim). -/
def escChar (c : Char) : List Char :=
  if isEscCh c then ['\\', escCode c] else [c]

/-- JSON string escaping over a character list. -/
def escapeList : List Char → List Char
  | [] => []
  | c :: cs => escChar c ++ escapeList cs

/-- A JSON string literal: `"` ++ escaped body ++ `"`. -/
def quoteStr (s : String) : String :=
  "\"" ++ String.mk (escapeList s.data) ++ "\""

/-- One `"key":"value"` entry of a stringified JS record. -/
def entryStr (p : String × String) : String :=
  quoteStr p.1 ++ ":" ++ quoteStr p.2

/-- `Array.prototype.join` / the separator-joining used by
`components.join("|")` and by `JSON.stringify`'s comma-separated entry
list. -/
def joinSep (sep : String) : List String → String
  | [] => ""
  | [x] => x
  | x :: y :: xs => x ++ sep ++ joinSep sep (y :: xs)

/-- `JSON.stringify` of a string-keyed record with string values, entries
in enumeration order. -/
def serializeObj (ps : List (String × String)) : String :=
  "\x7b" ++ joinSep "," (ps.map entryStr) ++ "\x7d"

/-- The part of an Express `Request` that the cache reads: method, path,
query record, body record, and headers (for `req.get`). -/
structure Request where
  method : String
  path : String
  query : List (String × String)
  body : List (String × String)
  headers : List (String × String)

/-- `CacheConfig` from `cache.ts` (lines 8–14): per-route cache policy. -/
structure CacheConfig where
  duration : Nat
  keyParams : List String := []
  ignoreParams : List String := []
  varyByHeaders : List String := []
  customKeyGenerator : Option (Request → String) := none

/-- The parameter-selection test of `generateCacheKey` (lines 213–216 and
226–229): a query/body key is kept when the allow-list is absent or empty
or contains it, and the deny-list does not contain it. -/
def selectedB (cfg : CacheConfig) (k : String) : Bool :=
  (cfg.keyParams.isEmpty || cfg.keyParams.contains k)
    && !(cfg.ignoreParams.contains k)

/-- The `queryParams` record built by `generateCacheKey` (lines 210–220). -/
def filteredQuery (req : Request) (cfg : CacheConfig) : List (String × String) :=
  req.query.filter (fun p => selectedB cfg p.1)

/-- The `bodyParams` record built by `generateCacheKey` (lines 222–233):
populated only for POST/PUT requests. -/
def filteredBody (req : Request) (cfg : CacheConfig) : List (String × String) :=
  if req.method = "POST" ∨ req.method = "PUT" then
    req.body.filter (fun p => selectedB cfg p.1)
  else []

/-- `req.get(header)`: header lookup. -/
def reqGet (req : Request) (h : String) : Option String :=
  req.headers.lookup h

/-- The entry one configured vary-header contributes to the `headers`
record: present only when `req.get(header)` is truthy (non-empty). -/
def hdrEntry (req : Request) (h : String) : Option (String × String) :=
  match reqGet req h with
  | some v => if v = "" then none else some (h, v)
  | none => none

/-- The `headers` record built by `generateCacheKey` (lines 235–244): one
entry per configured vary-header whose value is present and truthy
(non-empty). -/
def selectedHeaders (req : Request) (cfg : CacheConfig) : List (String × String) :=
  cfg.varyByHeaders.filterMap (hdrEntry req)

/-- `AdvancedCache.generateCacheKey` (lines 202–254): a custom generator
fully overrides the built-in derivation; otherwise the key is
`method|path|queryJSON|bodyJSON|headersJSON`. -/
def generateCacheKey (req : Request) (cfg : CacheConfig) : String :=
  match cfg.customKeyGenerator with
  | some g => g req
  | none =>
    joinSep "|" [req.method, req.path,
      serializeObj (filteredQuery req cfg),
      serializeObj (filteredBody req cfg),
      serializeObj (selectedHeaders req cfg)]

/-! ## The in-process store: `node-cache` and `NodeCacheAdapter` -/

/-- The only `set` error the modelled `node-cache` raises: `ECACHEFULL`. -/
inductive NCError where
  | ecachefull
deriving DecidableEq

/-- One live `node-cache` entry (expiry bookkeeping carried as the raw
TTL; no claim under study observes expiry). -/
structure NCEntry where
  key : String
  value : JVal
  ttl : Nat
deriving DecidableEq

/-- The `node-cache` instance owned by `NodeCacheAdapter`: the configured
`maxKeys` (`-1` = unbounded, from `options.maxKeys || -1`) and the live
entries in key-insertion order (the order `Object.keys` reports). -/
structure NCState where
  maxKeys : Int
  entries : List NCEntry
deriving DecidableEq

/-- `node-cache`'s `set`: throws `ECACHEFULL` when `maxKeys > -1` and the
current key count has reached `maxKeys` (checked before looking at the
key, so overwrites at capacity also throw); otherwise overwrites in place
or appends. -/
def ncSet (st : NCState) (k : String) (v : JVal) (ttl : Nat) : Except NCError NCState :=
  if st.maxKeys > -1 ∧ st.maxKeys ≤ (st.entries.length : Int) then
    .error .ecachefull
  else
    .ok { st with entries :=
      if st.entries.any (fun e => e.key == k) then
        st.entries.map (fun e => if e.key == k then ⟨k, v, ttl⟩ else e)
      else
        st.entries ++ [⟨k, v, ttl⟩] }

/-- `node-cache`'s `get`: the stored value, or absent. -/
def ncGet (st : NCState) (k : String) : Option JVal :=
  (st.entries.find? (fun e => e.key == k)).map (fun e => e.value)

/-- `node-cache`'s `del` of a single key. -/
def ncDel (st : NCState) (k : String) : NCState :=
  { st with entries := st.entries.filter (fun e => e.key ≠ k) }

/-- `node-cache`'s `keys()`: all live keys in enumeration order. -/
def ncKeys (st : NCState) : List String :=
  st.entries.map (fun e => e.key)

/-- `node-cache`'s `flushAll()`. -/
def ncFlushAll (st : NCState) : NCState :=
  { st with entries := [] }

/-- `NodeCacheAdapter.set` (lines 45–67) with the `try/catch` made
explicit: on `ECACHEFULL` it deletes the first `Math.ceil(keys.length *
0.1)` listed keys, retries the write exactly once, and swallows a retry
failure; every branch returns normally (`.ok`). -/
def nodeAdapterSetE (st : NCState) (k : String) (v : JVal) (ttl : Nat) :
    Except NCError NCState :=
  match ncSet st k v ttl with
  | .ok st2 => .ok st2
  | .error .ecachefull =>
    let keys := ncKeys st
    let keysToDelete := (keys.length + 9) / 10
    let st1 := (keys.take keysToDelete).foldl ncDel st
    match ncSet st1 k v ttl with
    | .ok st2 => .ok st2
    | .error _ => .ok st1

/-- `NodeCacheAdapter.set` as the state transformer its caller sees. -/
def nodeAdapterSet (st : NCState) (k : String) (v : JVal) (ttl : Nat) : NCState :=
  match nodeAdapterSetE st k v ttl with
  | .ok st2 => st2
  | .error _ => st

/-! ## The middleware (`AdvancedCache.middleware`, lines 259–297) -/

/-- `Partial<CacheConfig>`: the per-route argument of `middleware`;
absent fields do not override the defaults. -/
structure CacheConfigPatch where
  duration : Option Nat := none
  keyParams : Option (List String) := none
  ignoreParams : Option (List String) := none
  varyByHeaders : Option (List String) := none
  customKeyGenerator : Option (Request → String) := none

/-- `config?.customKeyGenerator` on the optional route argument. -/
def patchCustom : Option CacheConfigPatch → Option (Request → String)
  | none => none
  | some p => p.customKeyGenerator

/-- The manager's `defaultConfig` (lines 191–196). -/
def defaultConfig (defaultTTL : Nat) : CacheConfig :=
  { duration := defaultTTL, keyParams := [], ignoreParams := [],
    varyByHeaders := [], customKeyGenerator := none }

/-- `{ ...this.defaultConfig, ...config }` (line 260). -/
def mergeConfig (d : CacheConfig) : Option CacheConfigPatch → CacheConfig
  | none => d
  | some p =>
    { duration := p.duration.getD d.duration,
      keyParams := p.keyParams.getD d.keyParams,
      ignoreParams := p.ignoreParams.getD d.ignoreParams,
      varyByHeaders := p.varyByHeaders.getD d.varyByHeaders,
      customKeyGenerator := p.customKeyGenerator }

/-- Outcome of `this.cacheAdapter.get(cacheKey)` as the middleware sees
it: a value / absence, or a raised error (caught at lines 278–280). -/
inductive CacheGetResult where
  | found (v : Option JVal)
  | raised
deriving DecidableEq

/-- What one run of the middleware does with a request.
`nextNoCache` is the early `return next()` of lines 264–266: no key
computed, no store access, no response wrapping. `respondCached v` is the
hit short-circuit `return res.json(cachedResponse)`: the downstream
handler never runs. `nextIntercept key` is the miss path: `res.json` is
wrapped so that the first payload sent is written back under `key`, and
`next()` runs. -/
inductive MWOutcome where
  | nextNoCache
  | respondCached (v : JVal)
  | nextIntercept (key : String)
deriving DecidableEq

/-- The final cache key the middleware uses for a request. -/
def middlewareKey (defaultTTL : Nat) (p : Option CacheConfigPatch) (req : Request) : String :=
  generateCacheKey req (mergeConfig (defaultConfig defaultTTL) p)

/-- One run of the request handler returned by
`AdvancedCache.middleware` (lines 262–296), with the store's `get`
behaviour supplied as a function of the key. -/
def middlewareRun (defaultTTL : Nat) (p : Option CacheConfigPatch)
    (store : String → CacheGetResult) (req : Request) : MWOutcome :=
  if req.method != "GET" && (patchCustom p).isNone then
    .nextNoCache
  else
    let cacheKey := middlewareKey defaultTTL p req
    match store cacheKey with
    | .raised => .nextIntercept cacheKey
    | .found none => .nextIntercept cacheKey
    | .found (some v) =>
      if v.truthy then .respondCached v else .nextIntercept cacheKey

/-- What the wrapped `res.json` (lines 283–293) does to the in-process
store when the downstream handler emits `body`: write-back under the
derived key with the route's duration as TTL. -/
def interceptedJsonSet (st : NCState) (key : String) (body : JVal) (duration : Nat) : NCState :=
  nodeAdapterSet st key body duration

/-! ## `AdvancedCache.clearCache` (lines 302–330), in-process path -/

/-- `clearCache(pattern?)` over the in-process adapter: no pattern ⇒
`flushAll`; with a pattern ⇒ list all keys and delete those the pattern
matches (`RegExp.test` modelled as a string predicate). -/
def clearCache (pat : Option (String → Bool)) (st : NCState) : NCState :=
  match pat with
  | none => ncFlushAll st
  | some p => (ncKeys st).foldl (fun s k => if p k then ncDel s k else s) st

/-! ## The networked store: `RedisCacheAdapter` (lines 82–171) -/

/-- An error raised by the `ioredis` client or by `JSON.parse`. -/
inductive RedisErr where
  | failure
deriving DecidableEq

/-- The body of the `try` in `RedisCacheAdapter.get` (lines 126–128):
`await client.get`, then `value ? JSON.parse(value) : undefined` (both
`null` and the empty string are falsy). -/
def redisGetTry (clientGet : Except RedisErr (Option String))
    (decode : String → Except RedisErr JVal) : Except RedisErr (Option JVal) :=
  match clientGet with
  | .error e => .error e
  | .ok none => .ok none
  | .ok (some s) =>
    if s = "" then .ok none
    else
      match decode s with
      | .ok v => .ok (some v)
      | .error e => .error e

/-- `RedisCacheAdapter.get` (lines 125–133): any raised error is caught,
logged, and turned into `undefined`. -/
def redisGet (clientGet : Except RedisErr (Option String))
    (decode : String → Except RedisErr JVal) : Except RedisErr (Option JVal) :=
  match redisGetTry clientGet decode with
  | .ok r => .ok r
  | .error _ => .ok none

/-- `RedisCacheAdapter.set` (lines 135–141): errors from
`client.setex` are caught and logged; the call returns normally. -/
def redisSet (clientSetex : Except RedisErr Unit) : Except RedisErr Unit :=
  match clientSetex with
  | .ok _ => .ok ()
  | .error _ => .ok ()

/-- `RedisCacheAdapter.del` (lines 143–149). -/
def redisDel (clientDel : Except RedisErr Unit) : Except RedisErr Unit :=
  match clientDel with
  | .ok _ => .ok ()
  | .error _ => .ok ()

/-- `RedisCacheAdapter.keys` (lines 151–158): an error yields `[]`. -/
def redisKeys (clientKeys : Except RedisErr (List String)) : Except RedisErr (List String) :=
  match clientKeys with
  | .ok ks => .ok ks
  | .error _ => .ok []

/-- `RedisCacheAdapter.flushAll` (lines 160–166). -/
def redisFlushAll (clientFlushall : Except RedisErr Unit) : Except RedisErr Unit :=
  match clientFlushall with
  | .ok _ => .ok ()
  | .error _ => .ok ()

/-- The `retryStrategy` passed to the `ioredis` constructor (lines
94–101): `none` is the `null` stop signal, otherwise the delay in
milliseconds. -/
def retryStrategy (maxReconnectAttempts times : Nat) : Option Nat :=
  if times > maxReconnectAttempts then none
  else some (min (times * 100) 3000)

/-- The connectivity signals the adapter subscribes to (lines 104–117). -/
inductive ConnEvent where
  | connect
  | errorEvent
  | closeEvent
deriving DecidableEq

/-- Effect of one signal on `isConnected`. -/
def connStep (_b : Bool) : ConnEvent → Bool
  | .connect => true
  | .errorEvent => false
  | .closeEvent => false

/-- `isConnected` after a sequence of signals, starting from `b`
(`false` at construction). -/
def connStatus (b : Bool) (es : List ConnEvent) : Bool :=
  es.foldl connStep b

/-! ## Request-editing operations used to state the key-derivation claims -/

/-- Change the value of query parameter `k` (wherever it occurs) to `v`. -/
def setQueryVal (r : Request) (k v : String) : Request :=
  { r with query := r.query.map (fun p => if p.1 = k then (k, v) else p) }

/-- Delete query parameter `k`. -/
def removeQueryKey (r : Request) (k : String) : Request :=
  { r with query := r.query.filter (fun p => p.1 != k) }

/-- Add a query parameter `k := v` at the end of the enumeration. -/
def addQueryPair (r : Request) (k v : String) : Request :=
  { r with query := r.query ++ [(k, v)] }

/-- Change the value of body parameter `k` (wherever it occurs) to `v`. -/
def setBodyVal (r : Request) (k v : String) : Request :=
  { r with body := r.body.map (fun p => if p.1 = k then (k, v) else p) }

/-- Delete body parameter `k`. -/
def removeBodyKey (r : Request) (k : String) : Request :=
  { r with body := r.body.filter (fun p => p.1 != k) }

/-- Add a body parameter `k := v` at the end of the enumeration. -/
def addBodyPair (r : Request) (k v : String) : Request :=
  { r with body := r.body ++ [(k, v)] }

/-- Change the value of header `h` (wherever it occurs) to `v`. -/
def setHeaderVal (r : Request) (h v : String) : Request :=
  { r with headers := r.headers.map (fun p => if p.1 = h then (h, v) else p) }

/-- Delete header `h`. -/
def removeHeader (r : Request) (h : String) : Request :=
  { r with headers := r.headers.filter (fun p => p.1 != h) }

/-- Add a header `h: v` at the end of the header list. -/
def addHeaderPair (r : Request) (h v : String) : Request :=
  { r with headers := r.headers ++ [(h, v)] }

/-- The hypothesis of the determinism claim, read off the spec: the two
requests agree on method, on path, on the value (and presence) of every
query and body parameter the config selects, and on every header the
config folds into the key. -/
def selAgree (cfg : CacheConfig) (r1 r2 : Request) : Prop :=
  r1.method = r2.method ∧ r1.path = r2.path ∧
  (∀ k, selectedB cfg k = true → r1.query.lookup k = r2.query.lookup k) ∧
  (∀ k, selectedB cfg k = true → r1.body.lookup k = r2.body.lookup k) ∧
  (∀ h ∈ cfg.varyByHeaders, reqGet r1 h = reqGet r2 h)

/-- A config with no custom generator and no param filtering (every
query parameter is selected). -/
def cfgPlain : CacheConfig := { duration := 60 }

/-- `?a=1&b=2`, enumerated in that order. -/
def reqAB : Request := ⟨"GET", "/anime", [("a", "1"), ("b", "2")], [], []⟩

/-- The same parameters with the same values, enumerated as `?b=2&a=1`. -/
def reqBA : Request := ⟨"GET", "/anime", [("b", "2"), ("a", "1")], [], []⟩

/-- A config varying by header `al` only. -/
def cfgHdr : CacheConfig := { duration := 60, varyByHeaders := ["al"] }

/-- A request with no `al` header at all. -/
def reqNoH : Request := ⟨"GET", "/anime", [], [], []⟩

/-- The same request with `al` present but set to the empty string. -/
def reqEmptyH : Request := ⟨"GET", "/anime", [], [], [("al", "")]⟩

/-- A config ignoring param `t` and varying by header `al`. -/
def cfgW : CacheConfig := { duration := 60, ignoreParams := ["t"], varyByHeaders := ["al"] }

/-- `GET /x?a=1&t=9` with header `al: en`. -/
def rW1 : Request := ⟨"GET", "/x", [("a", "1"), ("t", "9")], [], [("al", "en")]⟩

/-- Same request except the ignored param `t` differs. -/
def rW2 : Request := ⟨"GET", "/x", [("a", "1"), ("t", "8")], [], [("al", "en")]⟩

/-- A POST request with body param `a=1`. -/
def rWP : Request := ⟨"POST", "/x", [], [("a", "1")], []⟩

/-- Inserting a sequence of key/value pairs through
`NodeCacheAdapter.set`, in order. -/
def insertAll (st : NCState) (ks : List (String × JVal)) (ttl : Nat) : NCState :=
  ks.foldl (fun s kp => nodeAdapterSet s kp.1 kp.2 ttl) st

/-- The `/^GET \/a/` regex test of the pattern-invalidation example. -/
def testGETa (k : String) : Bool :=
  "GET /a".data.isPrefixOf k.data

/-! ## String-level infrastructure -/

theorem strAppend_cancel_left {s a b : String} (h : s ++ a = s ++ b) : a = b := by
  apply String.ext
  have hd : s.data ++ a.data = s.data ++ b.data := by
    simpa [String.data_append] using congrArg String.data h
  exact List.append_cancel_left hd

theorem strAppend_cancel_right {a b s : String} (h : a ++ s = b ++ s) : a = b := by
  apply String.ext
  have hd : a.data ++ s.data = b.data ++ s.data := by
    simpa [String.data_append] using congrArg String.data h
  exact List.append_cancel_right hd

theorem escChar_ne_nil (c : Char) : escChar c ≠ [] := by
  unfold escChar
  split_ifs <;> simp

theorem escCode_inj {a b : Char} (ha : isEscCh a = true) (hb : isEscCh b = true)
    (h : escCode a = escCode b) : a = b := by
  have ha' : a = '"' ∨ a = '\\' ∨ a = '\n' ∨ a = '\t' ∨ a = '\r' ∨ a = '\x08' ∨ a = '\x0c' := by
    simpa [isEscCh, or_assoc] using ha
  have hb' : b = '"' ∨ b = '\\' ∨ b = '\n' ∨ b = '\t' ∨ b = '\r' ∨ b = '\x08' ∨ b = '\x0c' := by
    simpa [isEscCh, or_assoc] using hb
  rcases ha' with rfl | rfl | rfl | rfl | rfl | rfl | rfl <;>
    rcases hb' with rfl | rfl | rfl | rfl | rfl | rfl | rfl <;>
    first
      | rfl
      | exact absurd h (by decide)

theorem escChar_append_inj {a b : Char} {x y : List Char}
    (h : escChar a ++ x = escChar b ++ y) : a = b ∧ x = y := by
  unfold escChar at h
  by_cases ha : isEscCh a = true <;> by_cases hb : isEscCh b = true
  · rw [if_pos ha, if_pos hb] at h
    simp only [List.cons_append, List.nil_append, List.cons.injEq] at h
    exact ⟨escCode_inj ha hb h.2.1, h.2.2⟩
  · rw [if_pos ha, if_neg hb] at h
    simp only [List.cons_append, List.nil_append, List.cons.injEq] at h
    exact absurd (h.1 ▸ (by decide : isEscCh '\\' = true)) hb
  · rw [if_neg ha, if_pos hb] at h
    simp only [List.cons_append, List.nil_append, List.cons.injEq] at h
    exact absurd (h.1.symm ▸ (by decide : isEscCh '\\' = true)) ha
  · rw [if_neg ha, if_neg hb] at h
    simp only [List.cons_append, List.nil_append, List.cons.injEq] at h
    exact ⟨h.1, h.2⟩

theorem escapeList_inj : ∀ {l1 l2 : List Char}, escapeList l1 = escapeList l2 → l1 = l2 := by
  intro l1
  induction l1 with
  | nil =>
    intro l2 h
    cases l2 with
    | nil => rfl
    | cons c cs =>
      exfalso
      rw [escapeList, escapeList] at h
      exact escChar_ne_nil c (List.append_eq_nil.mp h.symm).1
  | cons a as ih =>
    intro l2 h
    cases l2 with
    | nil =>
      exfalso
      rw [escapeList, escapeList] at h
      exact escChar_ne_nil a (List.append_eq_nil.mp h).1
    | cons b bs =>
      rw [escapeList, escapeList] at h
      obtain ⟨hab, ht⟩ := escChar_append_inj h
      rw [hab, ih ht]

theorem quoteStr_inj {s t : String} (h : quoteStr s = quoteStr t) : s = t := by
  apply String.ext
  apply escapeList_inj
  have hd := congrArg String.data h
  simp only [quoteStr, String.data_append] at hd
  exact List.append_cancel_left (List.append_cancel_right hd)

theorem entryStr_ne {k v v' : String} (hne : v ≠ v') :
    entryStr (k, v) ≠ entryStr (k, v') := by
  intro h
  unfold entryStr at h
  exact hne (quoteStr_inj (strAppend_cancel_left h))

theorem joinSep_cons_of_ne_nil (sep a : String) {l : List String} (hl : l ≠ []) :
    joinSep sep (a :: l) = a ++ sep ++ joinSep sep l := by
  cases l with
  | nil => exact absurd rfl hl
  | cons y ys => rfl

theorem joinSep_single_diff (sep : String) {x y : String} (hxy : x ≠ y) :
    ∀ (pre post : List String),
      joinSep sep (pre ++ x :: post) ≠ joinSep sep (pre ++ y :: post) := by
  intro pre
  induction pre with
  | nil =>
    intro post h
    simp only [List.nil_append] at h
    cases post with
    | nil => exact hxy h
    | cons z zs =>
      rw [joinSep_cons_of_ne_nil sep x (by simp), joinSep_cons_of_ne_nil sep y (by simp)] at h
      exact hxy (strAppend_cancel_right (strAppend_cancel_right h))
  | cons a pre' ih =>
    intro post h
    rw [List.cons_append, List.cons_append,
      joinSep_cons_of_ne_nil sep a (by simp), joinSep_cons_of_ne_nil sep a (by simp)] at h
    exact ih post (strAppend_cancel_left h)

theorem serializeObj_single_diff {k v v' : String} (hne : v ≠ v')
    (pre post : List (String × String)) :
    serializeObj (pre ++ (k, v) :: post) ≠ serializeObj (pre ++ (k, v') :: post) := by
  intro h
  unfold serializeObj at h
  have h1 : joinSep "," ((pre ++ (k, v) :: post).map entryStr)
      = joinSep "," ((pre ++ (k, v') :: post).map entryStr) :=
    strAppend_cancel_left (strAppend_cancel_right h)
  rw [List.map_append, List.map_append, List.map_cons, List.map_cons] at h1
  exact joinSep_single_diff "," (entryStr_ne hne) (pre.map entryStr) (post.map entryStr) h1

/-! ## Key-derivation lemmas -/

theorem generateCacheKey_builtin (req : Request) (cfg : CacheConfig)
    (hc : cfg.customKeyGenerator = none) :
    generateCacheKey req cfg =
      joinSep "|" [req.method, req.path,
        serializeObj (filteredQuery req cfg),
        serializeObj (filteredBody req cfg),
        serializeObj (selectedHeaders req cfg)] := by
  unfold generateCacheKey
  rw [hc]

theorem filter_map_unsel (sel : String → Bool) {k : String} (v : String) (hk : sel k = false) :
    ∀ q : List (String × String),
      (q.map (fun p => if p.1 = k then (k, v) else p)).filter (fun p => sel p.1)
        = q.filter (fun p => sel p.1) := by
  intro q
  induction q with
  | nil => rfl
  | cons p t ih =>
    obtain ⟨pk, pv⟩ := p
    by_cases hp : pk = k
    · subst hp
      simp only [List.map_cons, if_pos rfl, List.filter_cons, hk, ih]
      simp [hk]
    · simp only [List.map_cons, List.filter_cons, if_neg hp, ih]

theorem filter_filter_unsel (sel : String → Bool) {k : String} (hk : sel k = false) :
    ∀ q : List (String × String),
      (q.filter (fun p => p.1 != k)).filter (fun p => sel p.1)
        = q.filter (fun p => sel p.1) := by
  intro q
  rw [List.filter_filter]
  apply List.filter_congr
  intro x _
  by_cases hx : x.1 = k
  · rw [hx, hk]; simp
  · simp [hx]

theorem filter_append_unsel (sel : String → Bool) {k : String} (v : String) (hk : sel k = false) :
    ∀ q : List (String × String),
      (q ++ [(k, v)]).filter (fun p => sel p.1) = q.filter (fun p => sel p.1) := by
  intro q
  simp [List.filter_append, hk]

theorem map_set_id {k v' : String} :
    ∀ l : List (String × String), k ∉ l.map Prod.fst →
      l.map (fun p => if p.1 = k then (k, v') else p) = l := by
  intro l
  induction l with
  | nil => intro _; rfl
  | cons p t ih =>
    obtain ⟨pk, pv⟩ := p
    intro hmem
    simp only [List.map_cons, List.mem_cons] at hmem
    push_neg at hmem
    rw [List.map_cons, if_neg (by exact fun he => hmem.1 he.symm), ih hmem.2]

theorem lookup_map_set_self {k v' : String} :
    ∀ l : List (String × String), (l.lookup k).isSome = true →
      (l.map (fun p => if p.1 = k then (k, v') else p)).lookup k = some v' := by
  intro l
  induction l with
  | nil => intro h; simp [List.lookup] at h
  | cons p t ih =>
    obtain ⟨pk, pv⟩ := p
    intro h
    by_cases hp : pk = k
    · subst hp
      rw [List.map_cons, if_pos rfl]
      simp [List.lookup]
    · have hbeq : (k == pk) = false := by
        simp only [beq_eq_false_iff_ne, ne_eq]
        exact fun he => hp he.symm
      rw [List.map_cons, if_neg hp]
      rw [List.lookup, hbeq] at h ⊢
      exact ih h

theorem lookup_map_set_ne {k v' h2 : String} (hne : h2 ≠ k) :
    ∀ l : List (String × String),
      (l.map (fun p => if p.1 = k then (k, v') else p)).lookup h2 = l.lookup h2 := by
  intro l
  induction l with
  | nil => rfl
  | cons p t ih =>
    obtain ⟨pk, pv⟩ := p
    by_cases hp : pk = k
    · subst hp
      have hbeq : (h2 == pk) = false := by simpa [beq_eq_false_iff_ne] using hne
      rw [List.map_cons, if_pos rfl]
      rw [List.lookup, List.lookup, hbeq]
      exact ih
    · rw [List.map_cons, if_neg hp]
      rw [List.lookup, List.lookup]
      cases hbeq : h2 == pk with
      | true => rfl
      | false => exact ih

theorem filter_map_set_decomp (sel : String → Bool) {k : String} (v' : String)
    (hsel : sel k = true) :
    ∀ (q : List (String × String)) {v : String},
      (q.map Prod.fst).Nodup → q.lookup k = some v →
      ∃ pre post, q.filter (fun p => sel p.1) = pre ++ (k, v) :: post ∧
        (q.map (fun p => if p.1 = k then (k, v') else p)).filter (fun p => sel p.1)
          = pre ++ (k, v') :: post := by
  intro q
  induction q with
  | nil => intro v _ hlk; simp [List.lookup] at hlk
  | cons p t ih =>
    obtain ⟨pk, pv⟩ := p
    intro v hnd hlk
    rw [List.map_cons, List.nodup_cons] at hnd
    by_cases hp : pk = k
    · subst hp
      have hv : pv = v := by simpa [List.lookup] using hlk
      subst hv
      refine ⟨[], t.filter (fun p => sel p.1), ?_, ?_⟩
      · simp [List.filter_cons, hsel]
      · rw [List.map_cons, if_pos rfl, map_set_id t hnd.1]
        simp [List.filter_cons, hsel]
    · have hbeq : (k == pk) = false := by
        simp only [beq_eq_false_iff_ne, ne_eq]
        exact fun he => hp he.symm
      rw [List.lookup, hbeq] at hlk
      obtain ⟨pre, post, h1, h2⟩ := ih hnd.2 hlk
      cases hs : sel pk with
      | true =>
        refine ⟨(pk, pv) :: pre, post, ?_, ?_⟩
        · simp [List.filter_cons, hs, h1]
        · rw [List.map_cons, if_neg hp]
          simp [List.filter_cons, hs, h2]
      | false =>
        refine ⟨pre, post, ?_, ?_⟩
        · simp [List.filter_cons, hs, h1]
        · rw [List.map_cons, if_neg hp]
          simp [List.filter_cons, hs, h2]

theorem reqGet_set_self {h v v' : String} (r : Request) (hget : reqGet r h = some v) :
    reqGet (setHeaderVal r h v') h = some v' := by
  unfold reqGet at hget
  unfold reqGet setHeaderVal
  apply lookup_map_set_self
  simp [hget]

theorem reqGet_set_ne {h v' h2 : String} (r : Request) (hne : h2 ≠ h) :
    reqGet (setHeaderVal r h v') h2 = reqGet r h2 := by
  unfold reqGet setHeaderVal
  exact lookup_map_set_ne hne r.headers

theorem hdrEntry_set_self {h v v' : String} (r : Request)
    (hget : reqGet r h = some v) (hv' : v' ≠ "") :
    hdrEntry (setHeaderVal r h v') h = some (h, v') := by
  unfold hdrEntry
  rw [reqGet_set_self r hget]
  simp [hv']

theorem hdrEntry_set_ne {h v' h2 : String} (r : Request) (hne : h2 ≠ h) :
    hdrEntry (setHeaderVal r h v') h2 = hdrEntry r h2 := by
  unfold hdrEntry
  rw [reqGet_set_ne r hne]

theorem lookup_filter_ne {h h2 : String} (hne : h2 ≠ h) :
    ∀ l : List (String × String),
      (l.filter (fun p => p.1 != h)).lookup h2 = l.lookup h2 := by
  intro l
  induction l with
  | nil => rfl
  | cons p t ih =>
    obtain ⟨pk, pv⟩ := p
    rw [List.filter_cons]
    by_cases hp : pk = h
    · subst hp
      have hcond : ((pk, pv).1 != pk) = false := by simp
      rw [hcond]
      simp only [Bool.false_eq_true, if_false]
      have hbeq : (h2 == pk) = false := by simpa [beq_eq_false_iff_ne] using hne
      rw [List.lookup, hbeq]
      exact ih
    · have hcond : ((pk, pv).1 != h) = true := by simpa [bne_iff_ne] using hp
      rw [hcond]
      simp only [if_true]
      rw [List.lookup, List.lookup]
      cases hbeq : h2 == pk with
      | true => rfl
      | false => exact ih

theorem lookup_append_ne {h v h2 : String} (hne : h2 ≠ h) :
    ∀ l : List (String × String),
      (l ++ [(h, v)]).lookup h2 = l.lookup h2 := by
  intro l
  induction l with
  | nil =>
    have hbeq : (h2 == h) = false := by simpa [beq_eq_false_iff_ne] using hne
    simp [List.lookup, hbeq]
  | cons p t ih =>
    obtain ⟨pk, pv⟩ := p
    rw [List.cons_append, List.lookup, List.lookup]
    cases hbeq : h2 == pk with
    | true => rfl
    | false => exact ih

theorem hdrEntry_remove_ne {h h2 : String} (r : Request) (hne : h2 ≠ h) :
    hdrEntry (removeHeader r h) h2 = hdrEntry r h2 := by
  unfold hdrEntry
  have hget : reqGet (removeHeader r h) h2 = reqGet r h2 := by
    unfold reqGet removeHeader
    exact lookup_filter_ne hne r.headers
  rw [hget]

theorem hdrEntry_add_ne {h v h2 : String} (r : Request) (hne : h2 ≠ h) :
    hdrEntry (addHeaderPair r h v) h2 = hdrEntry r h2 := by
  unfold hdrEntry
  have hget : reqGet (addHeaderPair r h v) h2 = reqGet r h2 := by
    unfold reqGet addHeaderPair
    exact lookup_append_ne hne r.headers
  rw [hget]

/-- The body component depends only on the method and on the filtered
body record. -/
theorem filteredBody_eq (cfg : CacheConfig) (r r' : Request)
    (hm : r'.method = r.method)
    (hf : r'.body.filter (fun p => selectedB cfg p.1)
        = r.body.filter (fun p => selectedB cfg p.1)) :
    filteredBody r' cfg = filteredBody r cfg := by
  unfold filteredBody
  rw [hm]
  by_cases hmm : r.method = "POST" ∨ r.method = "PUT"
  · rw [if_pos hmm, if_pos hmm]
    exact hf
  · rw [if_neg hmm, if_neg hmm]

theorem filterMap_hdr_decomp (r : Request) {h v v' : String}
    (hget : reqGet r h = some v) (hv : v ≠ "") (hv' : v' ≠ "") :
    ∀ hl : List String, hl.Nodup → h ∈ hl →
      ∃ pre post,
        hl.filterMap (hdrEntry r) = pre ++ (h, v) :: post ∧
        hl.filterMap (hdrEntry (setHeaderVal r h v')) = pre ++ (h, v') :: post := by
  intro hl
  induction hl with
  | nil => intro _ hmem; cases hmem
  | cons h0 tl ih =>
    intro hnd hmem
    rw [List.nodup_cons] at hnd
    by_cases hh : h0 = h
    · subst hh
      have he1 : hdrEntry r h0 = some (h0, v) := by
        unfold hdrEntry; rw [hget]; simp [hv]
      have he2 : hdrEntry (setHeaderVal r h0 v') h0 = some (h0, v') :=
        hdrEntry_set_self r hget hv'
      have htl : tl.filterMap (hdrEntry (setHeaderVal r h0 v')) = tl.filterMap (hdrEntry r) := by
        apply List.filterMap_congr
        intro x hx
        exact hdrEntry_set_ne r (fun he => hnd.1 (he ▸ hx))
      exact ⟨[], tl.filterMap (hdrEntry r),
        by rw [List.filterMap_cons_some he1]; rfl,
        by rw [List.filterMap_cons_some he2, htl]; rfl⟩
    · have hmem' : h ∈ tl := by
        rcases List.mem_cons.mp hmem with he | ht
        · exact absurd he.symm hh
        · exact ht
      obtain ⟨pre, post, h1, h2⟩ := ih hnd.2 hmem'
      have heq0 : hdrEntry (setHeaderVal r h v') h0 = hdrEntry r h0 :=
        hdrEntry_set_ne r hh
      cases he : hdrEntry r h0 with
      | none =>
        exact ⟨pre, post,
          by rw [List.filterMap_cons_none he, h1],
          by rw [List.filterMap_cons_none (heq0.trans he), h2]⟩
      | some e =>
        exact ⟨e :: pre, post,
          by rw [List.filterMap_cons_some he, h1]; rfl,
          by rw [List.filterMap_cons_some (heq0.trans he), h2]; rfl⟩

/-- Components of two built-in keys agree ⇒ the keys agree. -/
theorem key_congr (cfg : CacheConfig) (r1 r2 : Request)
    (hc : cfg.customKeyGenerator = none)
    (hm : r1.method = r2.method) (hp : r1.path = r2.path)
    (hq : filteredQuery r1 cfg = filteredQuery r2 cfg)
    (hb : filteredBody r1 cfg = filteredBody r2 cfg)
    (hh : selectedHeaders r1 cfg = selectedHeaders r2 cfg) :
    generateCacheKey r1 cfg = generateCacheKey r2 cfg := by
  rw [generateCacheKey_builtin r1 cfg hc, generateCacheKey_builtin r2 cfg hc,
    hm, hp, hq, hb, hh]

/-! ## Claim C1 -/

/-- C1 counterexample, two independent failures of the claim as stated.
First, the determinism direction: under a config with no custom
generator and no param filtering, `?a=1&b=2` and `?b=2&a=1` have
identical method, path and selected-parameter values (the claim's
hypothesis), yet `generateCacheKey` gives different keys, because the
query record is serialized in enumeration order without
canonicalization. Second, the sensitivity direction: under a config
varying by header `al`, two otherwise identical requests that differ in
that selected header (absent vs. present-but-empty) get the same key,
because a falsy header value is dropped from the key — so "changing a
selected field changes the key" fails, and only changes between
non-empty header values are guaranteed to register. -/
theorem c1_determinism_counterexample :
    (cfgPlain.customKeyGenerator = none ∧
      selAgree cfgPlain reqAB reqBA ∧
      generateCacheKey reqAB cfgPlain ≠ generateCacheKey reqBA cfgPlain) ∧
    (cfgHdr.customKeyGenerator = none ∧
      reqNoH.method = reqEmptyH.method ∧
      reqNoH.path = reqEmptyH.path ∧
      reqNoH.query = reqEmptyH.query ∧
      reqNoH.body = reqEmptyH.body ∧
      "al" ∈ cfgHdr.varyByHeaders ∧
      reqGet reqNoH "al" ≠ reqGet reqEmptyH "al" ∧
      generateCacheKey reqNoH cfgHdr = generateCacheKey reqEmptyH cfgHdr) := by
  refine ⟨⟨rfl, ⟨rfl, rfl, ?_, ?_, ?_⟩, by decide⟩,
    rfl, rfl, rfl, rfl, rfl, by decide, by decide, by decide⟩
  · intro k _
    by_cases ha : k = "a"
    · subst ha; decide
    · by_cases hb : k = "b"
      · subst hb; decide
      · have h1 : (k == "a") = false := by simpa [beq_eq_false_iff_ne] using ha
        have h2 : (k == "b") = false := by simpa [beq_eq_false_iff_ne] using hb
        simp [reqAB, reqBA, List.lookup, h1, h2]
  · intro k _
    rfl
  · intro h hmem
    simp [cfgPlain] at hmem

/-- C1 (amended): for every config without a custom generator,
(1) two requests with identical method, path and identical *ordered
enumerations* of selected query and body parameters and of contributed
vary-headers get byte-identical keys; (2) changing, removing or adding a
query parameter the config does not select, a body parameter the config
does not select, or a header outside `varyByHeaders`, leaves the key
unchanged; (3) changing the value of a selected query parameter
(duplicate-free query), of a selected body parameter on POST/PUT, or of
a configured vary-header between two distinct non-empty values, changes
the key. -/
theorem c1_generateCacheKey_determinism :
    (∀ (cfg : CacheConfig) (r1 r2 : Request), cfg.customKeyGenerator = none →
      r1.method = r2.method → r1.path = r2.path →
      filteredQuery r1 cfg = filteredQuery r2 cfg →
      filteredBody r1 cfg = filteredBody r2 cfg →
      selectedHeaders r1 cfg = selectedHeaders r2 cfg →
      generateCacheKey r1 cfg = generateCacheKey r2 cfg) ∧
    (∀ (cfg : CacheConfig) (r : Request) (k v : String),
      cfg.customKeyGenerator = none → selectedB cfg k = false →
      generateCacheKey (setQueryVal r k v) cfg = generateCacheKey r cfg ∧
      generateCacheKey (removeQueryKey r k) cfg = generateCacheKey r cfg ∧
      generateCacheKey (addQueryPair r k v) cfg = generateCacheKey r cfg) ∧
    (∀ (cfg : CacheConfig) (r : Request) (k v : String),
      cfg.customKeyGenerator = none → selectedB cfg k = false →
      generateCacheKey (setBodyVal r k v) cfg = generateCacheKey r cfg ∧
      generateCacheKey (removeBodyKey r k) cfg = generateCacheKey r cfg ∧
      generateCacheKey (addBodyPair r k v) cfg = generateCacheKey r cfg) ∧
    (∀ (cfg : CacheConfig) (r : Request) (h v : String),
      cfg.customKeyGenerator = none → h ∉ cfg.varyByHeaders →
      generateCacheKey (setHeaderVal r h v) cfg = generateCacheKey r cfg ∧
      generateCacheKey (removeHeader r h) cfg = generateCacheKey r cfg ∧
      generateCacheKey (addHeaderPair r h v) cfg = generateCacheKey r cfg) ∧
    (∀ (cfg : CacheConfig) (r : Request) (k v v' : String),
      cfg.customKeyGenerator = none → (r.query.map Prod.fst).Nodup →
      selectedB cfg k = true → r.query.lookup k = some v → v' ≠ v →
      generateCacheKey (setQueryVal r k v') cfg ≠ generateCacheKey r cfg) ∧
    (∀ (cfg : CacheConfig) (r : Request) (k v v' : String),
      cfg.customKeyGenerator = none → (r.body.map Prod.fst).Nodup →
      (r.method = "POST" ∨ r.method = "PUT") →
      selectedB cfg k = true → r.body.lookup k = some v → v' ≠ v →
      generateCacheKey (setBodyVal r k v') cfg ≠ generateCacheKey r cfg) ∧
    (∀ (cfg : CacheConfig) (r : Request) (h v v' : String),
      cfg.customKeyGenerator = none → cfg.varyByHeaders.Nodup →
      h ∈ cfg.varyByHeaders → reqGet r h = some v → v ≠ "" → v' ≠ "" → v' ≠ v →
      generateCacheKey (setHeaderVal r h v') cfg ≠ generateCacheKey r cfg) := by
  refine ⟨?_, ?_, ?_, ?_, ?_, ?_, ?_⟩
  · -- (1) congruence
    intro cfg r1 r2 hc hm hp hq hb hh
    exact key_congr cfg r1 r2 hc hm hp hq hb hh
  · -- (2) unselected query params: change, remove, add
    intro cfg r k v hc hk
    refine ⟨?_, ?_, ?_⟩
    · refine key_congr cfg (setQueryVal r k v) r hc rfl rfl ?_ rfl rfl
      unfold filteredQuery setQueryVal
      exact filter_map_unsel (selectedB cfg) v hk r.query
    · refine key_congr cfg (removeQueryKey r k) r hc rfl rfl ?_ rfl rfl
      unfold filteredQuery removeQueryKey
      exact filter_filter_unsel (selectedB cfg) hk r.query
    · refine key_congr cfg (addQueryPair r k v) r hc rfl rfl ?_ rfl rfl
      unfold filteredQuery addQueryPair
      exact filter_append_unsel (selectedB cfg) v hk r.query
  · -- (2') unselected body params: change, remove, add
    intro cfg r k v hc hk
    refine ⟨?_, ?_, ?_⟩
    · refine key_congr cfg (setBodyVal r k v) r hc rfl rfl rfl ?_ rfl
      exact filteredBody_eq cfg r (setBodyVal r k v) rfl
        (filter_map_unsel (selectedB cfg) v hk r.body)
    · refine key_congr cfg (removeBodyKey r k) r hc rfl rfl rfl ?_ rfl
      exact filteredBody_eq cfg r (removeBodyKey r k) rfl
        (filter_filter_unsel (selectedB cfg) hk r.body)
    · refine key_congr cfg (addBodyPair r k v) r hc rfl rfl rfl ?_ rfl
      exact filteredBody_eq cfg r (addBodyPair r k v) rfl
        (filter_append_unsel (selectedB cfg) v hk r.body)
  · -- (2'') headers outside varyByHeaders: change, remove, add
    intro cfg r h v hc hmem
    refine ⟨?_, ?_, ?_⟩
    · refine key_congr cfg (setHeaderVal r h v) r hc rfl rfl rfl rfl ?_
      unfold selectedHeaders
      apply List.filterMap_congr
      intro x hx
      exact hdrEntry_set_ne r (fun he => hmem (he ▸ hx))
    · refine key_congr cfg (removeHeader r h) r hc rfl rfl rfl rfl ?_
      unfold selectedHeaders
      apply List.filterMap_congr
      intro x hx
      exact hdrEntry_remove_ne r (fun he => hmem (he ▸ hx))
    · refine key_congr cfg (addHeaderPair r h v) r hc rfl rfl rfl rfl ?_
      unfold selectedHeaders
      apply List.filterMap_congr
      intro x hx
      exact hdrEntry_add_ne r (fun he => hmem (he ▸ hx))
  · -- (3) selected query param value change
    intro cfg r k v v' hc hnd hsel hlk hne heq
    obtain ⟨pre, post, h1, h2⟩ :=
      filter_map_set_decomp (selectedB cfg) v' hsel r.query hnd hlk
    have hqs : serializeObj (filteredQuery (setQueryVal r k v') cfg)
        ≠ serializeObj (filteredQuery r cfg) := by
      have h2' : filteredQuery (setQueryVal r k v') cfg = pre ++ (k, v') :: post := h2
      have h1' : filteredQuery r cfg = pre ++ (k, v) :: post := h1
      rw [h1', h2']
      exact serializeObj_single_diff hne pre post
    have hkey := joinSep_single_diff "|" hqs
      [r.method, r.path]
      [serializeObj (filteredBody r cfg), serializeObj (selectedHeaders r cfg)]
    apply hkey
    rw [generateCacheKey_builtin _ _ hc, generateCacheKey_builtin _ _ hc] at heq
    exact heq
  · -- (3') selected body param value change (POST/PUT)
    intro cfg r k v v' hc hnd hmeth hsel hlk hne heq
    have hmeth' : (setBodyVal r k v').method = "POST" ∨ (setBodyVal r k v').method = "PUT" := hmeth
    obtain ⟨pre, post, h1, h2⟩ :=
      filter_map_set_decomp (selectedB cfg) v' hsel r.body hnd hlk
    have hbs : serializeObj (filteredBody (setBodyVal r k v') cfg)
        ≠ serializeObj (filteredBody r cfg) := by
      have h1' : filteredBody r cfg = pre ++ (k, v) :: post := by
        unfold filteredBody
        rw [if_pos hmeth]
        exact h1
      have h2' : filteredBody (setBodyVal r k v') cfg = pre ++ (k, v') :: post := by
        unfold filteredBody
        rw [if_pos hmeth']
        exact h2
      rw [h1', h2']
      exact serializeObj_single_diff hne pre post
    have hkey := joinSep_single_diff "|" hbs
      [r.method, r.path, serializeObj (filteredQuery r cfg)]
      [serializeObj (selectedHeaders r cfg)]
    apply hkey
    rw [generateCacheKey_builtin _ _ hc, generateCacheKey_builtin _ _ hc] at heq
    exact heq
  · -- (3'') configured vary-header value change between non-empty values
    intro cfg r h v v' hc hnd hmem hget hv hv' hne heq
    obtain ⟨pre, post, h1, h2⟩ :=
      filterMap_hdr_decomp r hget hv hv' cfg.varyByHeaders hnd hmem
    have hhs : serializeObj (selectedHeaders (setHeaderVal r h v') cfg)
        ≠ serializeObj (selectedHeaders r cfg) := by
      have h1' : selectedHeaders r cfg = pre ++ (h, v) :: post := h1
      have h2' : selectedHeaders (setHeaderVal r h v') cfg = pre ++ (h, v') :: post := h2
      rw [h1', h2']
      exact serializeObj_single_diff hne pre post
    have hkey := joinSep_single_diff "|" hhs
      [r.method, r.path, serializeObj (filteredQuery r cfg),
        serializeObj (filteredBody r cfg)]
      ([] : List String)
    apply hkey
    rw [generateCacheKey_builtin _ _ hc, generateCacheKey_builtin _ _ hc] at heq
    exact heq

/-- Witness for the amended C1 at concrete requests and configs. -/
theorem c1_determinism_witness :
    generateCacheKey rW1 cfgW = generateCacheKey rW2 cfgW ∧
    (generateCacheKey (setQueryVal rW1 "t" "zz") cfgW = generateCacheKey rW1 cfgW ∧
      generateCacheKey (removeQueryKey rW1 "t") cfgW = generateCacheKey rW1 cfgW ∧
      generateCacheKey (addQueryPair rW1 "t" "zz") cfgW = generateCacheKey rW1 cfgW) ∧
    (generateCacheKey (setBodyVal rWP "t" "zz") cfgW = generateCacheKey rWP cfgW ∧
      generateCacheKey (removeBodyKey rWP "t") cfgW = generateCacheKey rWP cfgW ∧
      generateCacheKey (addBodyPair rWP "t" "zz") cfgW = generateCacheKey rWP cfgW) ∧
    (generateCacheKey (setHeaderVal rW1 "x-req" "q") cfgW = generateCacheKey rW1 cfgW ∧
      generateCacheKey (removeHeader rW1 "x-req") cfgW = generateCacheKey rW1 cfgW ∧
      generateCacheKey (addHeaderPair rW1 "x-req" "q") cfgW = generateCacheKey rW1 cfgW) ∧
    generateCacheKey (setQueryVal rW1 "a" "2") cfgW ≠ generateCacheKey rW1 cfgW ∧
    generateCacheKey (setBodyVal rWP "a" "2") cfgW ≠ generateCacheKey rWP cfgW ∧
    generateCacheKey (setHeaderVal rW1 "al" "fr") cfgW ≠ generateCacheKey rW1 cfgW := by
  refine ⟨?_, ?_, ?_, ?_, ?_, ?_, ?_⟩
  · exact c1_generateCacheKey_determinism.1 cfgW rW1 rW2 rfl rfl rfl
      (by decide) (by decide) (by decide)
  · exact c1_generateCacheKey_determinism.2.1 cfgW rW1 "t" "zz" rfl (by decide)
  · exact c1_generateCacheKey_determinism.2.2.1 cfgW rWP "t" "zz" rfl (by decide)
  · exact c1_generateCacheKey_determinism.2.2.2.1 cfgW rW1 "x-req" "q" rfl (by decide)
  · exact c1_generateCacheKey_determinism.2.2.2.2.1 cfgW rW1 "a" "1" "2" rfl
      (by decide) (by decide) (by decide) (by decide)
  · exact c1_generateCacheKey_determinism.2.2.2.2.2.1 cfgW rWP "a" "1" "2" rfl
      (by decide) (Or.inl rfl) (by decide) (by decide) (by decide)
  · exact c1_generateCacheKey_determinism.2.2.2.2.2.2 cfgW rW1 "al" "en" "fr" rfl
      (by decide) (by decide) (by decide) (by decide) (by decide) (by decide)

/-! ## Claims C2, C3, C5 (middleware flow) -/

/-- C2: for a GET request, when the store's `get` on the derived key
returns a truthy value, the middleware short-circuits with exactly that
stored value (`return res.json(cachedResponse)`); the downstream
continuation is never invoked. -/
theorem c2_hit_short_circuit (defaultTTL : Nat) (p : Option CacheConfigPatch)
    (store : String → CacheGetResult) (req : Request) (v : JVal)
    (hm : req.method = "GET")
    (hs : store (middlewareKey defaultTTL p req) = .found (some v))
    (ht : v.truthy = true) :
    middlewareRun defaultTTL p store req = .respondCached v := by
  simp [middlewareRun, hm, hs, ht]

/-- Witness for C2. -/
theorem c2_hit_witness :
    middlewareRun 60 none (fun _ => .found (some (.jstr "payload")))
      ⟨"GET", "/anime/search", [("q", "naruto")], [], []⟩
      = .respondCached (.jstr "payload") :=
  c2_hit_short_circuit 60 none (fun _ => .found (some (.jstr "payload")))
    ⟨"GET", "/anime/search", [("q", "naruto")], [], []⟩ (.jstr "payload") rfl rfl rfl

/-- C3: a request whose method is not GET, on a route with no custom key
generator, takes the early `return next()`: the outcome is
`nextNoCache` — no key computed, no store access, no response wrapping —
for every possible store behaviour. -/
theorem c3_nonget_passthrough (defaultTTL : Nat) (p : Option CacheConfigPatch)
    (store : String → CacheGetResult) (req : Request)
    (hm : req.method ≠ "GET") (hc : patchCustom p = none) :
    middlewareRun defaultTTL p store req = .nextNoCache := by
  simp [middlewareRun, bne_iff_ne, hm, hc]

/-- Witness for C3. -/
theorem c3_nonget_witness :
    middlewareRun 60 none (fun _ => .found (some (.jstr "cached")))
      ⟨"POST", "/anime", [], [("name", "x")], []⟩ = .nextNoCache :=
  c3_nonget_passthrough 60 none (fun _ => .found (some (.jstr "cached")))
    ⟨"POST", "/anime", [], [("name", "x")], []⟩ (by decide) rfl

/-- C5: when the store's `get` on the derived key raises, the middleware
behaves exactly as on a genuine miss: same outcome as a store that
returns absent, and that outcome invokes the downstream continuation
(`nextNoCache` or `nextIntercept`) — no error propagates. -/
theorem c5_get_error_fail_open (defaultTTL : Nat) (p : Option CacheConfigPatch)
    (store store' : String → CacheGetResult) (req : Request)
    (he : store (middlewareKey defaultTTL p req) = .raised)
    (hn : store' (middlewareKey defaultTTL p req) = .found none) :
    middlewareRun defaultTTL p store req = middlewareRun defaultTTL p store' req ∧
    (middlewareRun defaultTTL p store req = .nextNoCache ∨
      middlewareRun defaultTTL p store req
        = .nextIntercept (middlewareKey defaultTTL p req)) := by
  by_cases hcond : (req.method != "GET" && (patchCustom p).isNone) = true
  · constructor
    · simp [middlewareRun, hcond]
    · left
      simp [middlewareRun, hcond]
  · constructor
    · simp [middlewareRun, hcond, he, hn]
    · right
      simp [middlewareRun, hcond, he]

/-- Witness for C5. -/
theorem c5_fail_open_witness :
    middlewareRun 60 none (fun _ => .raised) ⟨"GET", "/anime/top", [], [], []⟩
      = middlewareRun 60 none (fun _ => .found none) ⟨"GET", "/anime/top", [], [], []⟩ ∧
    (middlewareRun 60 none (fun _ => .raised) ⟨"GET", "/anime/top", [], [], []⟩
        = .nextNoCache ∨
      middlewareRun 60 none (fun _ => .raised) ⟨"GET", "/anime/top", [], [], []⟩
        = .nextIntercept (middlewareKey 60 none ⟨"GET", "/anime/top", [], [], []⟩)) :=
  c5_get_error_fail_open 60 none (fun _ => .raised) (fun _ => .found none)
    ⟨"GET", "/anime/top", [], [], []⟩ rfl rfl

/-! ## Claim C7 (networked adapter error downgrading) -/

/-- C7: every operation of the Redis adapter catches client and decode
errors and downgrades them: the result is always `.ok` (nothing
propagates), with `get` returning absent, `set`/`del`/`flushAll`
completing as no-ops, and `keys` returning the empty list. -/
theorem c7_redis_error_downgrade :
    (∀ (cg : Except RedisErr (Option String)) (dec : String → Except RedisErr JVal),
      (redisGet cg dec).isOk = true) ∧
    (∀ dec : String → Except RedisErr JVal, redisGet (.error .failure) dec = .ok none) ∧
    (∀ s : String, redisGet (.ok (some s)) (fun _ => .error .failure) = .ok none) ∧
    (∀ r : Except RedisErr Unit, (redisSet r).isOk = true) ∧
    redisSet (.error .failure) = .ok () ∧
    (∀ r : Except RedisErr Unit, (redisDel r).isOk = true) ∧
    redisDel (.error .failure) = .ok () ∧
    (∀ r : Except RedisErr Unit, (redisFlushAll r).isOk = true) ∧
    redisFlushAll (.error .failure) = .ok () ∧
    (∀ r : Except RedisErr (List String), (redisKeys r).isOk = true) ∧
    redisKeys (.error .failure) = .ok [] := by
  refine ⟨?_, fun _ => rfl, ?_, ?_, rfl, ?_, rfl, ?_, rfl, ?_, rfl⟩
  · intro cg dec
    unfold redisGet
    cases hr : redisGetTry cg dec <;> rfl
  · intro s
    unfold redisGet redisGetTry
    by_cases hs : s = "" <;> simp [hs]
  · intro r; cases r <;> rfl
  · intro r; cases r <;> rfl
  · intro r; cases r <;> rfl
  · intro r; cases r <;> rfl

/-! ## Claim C8 (reconnection policy) -/

/-- C8: the reconnection policy returns `min(attempt*100, 3000)` ms for
every attempt number up to the configured maximum, and the stop signal
(`null`) for every attempt beyond it; after an error or close signal
with no subsequent connect, `isConnected` is false (degraded state). -/
theorem c8_retry_backoff :
    (∀ maxA t : Nat, t ≤ maxA → retryStrategy maxA t = some (min (t * 100) 3000)) ∧
    (∀ maxA t : Nat, maxA < t → retryStrategy maxA t = none) ∧
    (∀ (b : Bool) (es : List ConnEvent), connStatus b (es ++ [.errorEvent]) = false) ∧
    (∀ (b : Bool) (es : List ConnEvent), connStatus b (es ++ [.closeEvent]) = false) := by
  refine ⟨?_, ?_, ?_, ?_⟩
  · intro maxA t h
    unfold retryStrategy
    rw [if_neg (by omega)]
  · intro maxA t h
    unfold retryStrategy
    rw [if_pos h]
  · intro b es
    unfold connStatus
    rw [List.foldl_append]
    rfl
  · intro b es
    unfold connStatus
    rw [List.foldl_append]
    rfl

/-- Witness for C8. -/
theorem c8_retry_backoff_witness :
    retryStrategy 50 3 = some (min (3 * 100) 3000) ∧
    retryStrategy 50 51 = none ∧
    connStatus false [ConnEvent.connect, ConnEvent.errorEvent] = false :=
  ⟨c8_retry_backoff.1 50 3 (by decide), c8_retry_backoff.2.1 50 51 (by decide),
    c8_retry_backoff.2.2.1 false [ConnEvent.connect]⟩

/-! ## Claim C10 (body component of built-in keys) -/

/-- C10: whenever the middleware computes a key through the built-in
derivation (no custom generator configured and the request was not
excluded, hence a GET), the body-parameter record is empty and its
serialized component is the literal empty JSON object, so request bodies
never influence any built-in cache key. -/
theorem c10_builtin_body_component_empty (defaultTTL : Nat)
    (p : Option CacheConfigPatch) (store : String → CacheGetResult) (req : Request)
    (hc : patchCustom p = none)
    (hr : middlewareRun defaultTTL p store req ≠ .nextNoCache) :
    filteredBody req (mergeConfig (defaultConfig defaultTTL) p) = [] ∧
    middlewareKey defaultTTL p req =
      joinSep "|" [req.method, req.path,
        serializeObj (filteredQuery req (mergeConfig (defaultConfig defaultTTL) p)),
        "\x7b\x7d",
        serializeObj (selectedHeaders req (mergeConfig (defaultConfig defaultTTL) p))] := by
  have hm : req.method = "GET" := by
    by_contra hm
    exact hr (by simp [middlewareRun, bne_iff_ne, hm, hc])
  have hmc : (mergeConfig (defaultConfig defaultTTL) p).customKeyGenerator = none := by
    cases p with
    | none => rfl
    | some pp => simpa [mergeConfig, patchCustom] using hc
  have hb : filteredBody req (mergeConfig (defaultConfig defaultTTL) p) = [] := by
    unfold filteredBody
    rw [if_neg]
    rintro (hpost | hput)
    · rw [hm] at hpost
      exact (by decide : ("GET" : String) ≠ "POST") hpost
    · rw [hm] at hput
      exact (by decide : ("GET" : String) ≠ "PUT") hput
  refine ⟨hb, ?_⟩
  unfold middlewareKey
  rw [generateCacheKey_builtin _ _ hmc, hb]
  rfl

/-- Witness for C10. -/
theorem c10_body_component_witness :
    filteredBody ⟨"GET", "/anime", [("q", "one")], [("secret", "s")], []⟩
      (mergeConfig (defaultConfig 60) none) = [] ∧
    middlewareKey 60 none ⟨"GET", "/anime", [("q", "one")], [("secret", "s")], []⟩ =
      joinSep "|" ["GET", "/anime",
        serializeObj (filteredQuery ⟨"GET", "/anime", [("q", "one")], [("secret", "s")], []⟩
          (mergeConfig (defaultConfig 60) none)),
        "\x7b\x7d",
        serializeObj (selectedHeaders ⟨"GET", "/anime", [("q", "one")], [("secret", "s")], []⟩
          (mergeConfig (defaultConfig 60) none))] :=
  c10_builtin_body_component_empty 60 none (fun _ => .found none)
    ⟨"GET", "/anime", [("q", "one")], [("secret", "s")], []⟩ rfl (by decide)

/-! ## Claim C6 (clearCache) -/

/-- The fold of conditional deletes over a key list removes exactly the
entries whose key is in the list and matches the pattern. -/
theorem clearFold_filter (p : String → Bool) :
    ∀ (ks : List String) (st : NCState),
      (ks.foldl (fun s k => if p k then ncDel s k else s) st).entries
        = st.entries.filter (fun e => !(p e.key && ks.contains e.key)) := by
  intro ks
  induction ks with
  | nil =>
    intro st
    simp
  | cons k0 ks' ih =>
    intro st
    rw [List.foldl_cons]
    by_cases hp : p k0 = true
    · rw [if_pos hp, ih]
      unfold ncDel
      rw [List.filter_filter]
      apply List.filter_congr
      intro e _
      by_cases he : e.key = k0
      · simp [he, hp]
      · simp [he]
    · rw [if_neg hp, ih]
      apply List.filter_congr
      intro e _
      by_cases he : e.key = k0
      · rw [Bool.not_eq_true] at hp
        simp [he, hp]
      · simp [he]

/-- C6: `clearCache()` with no pattern flushes the whole store;
`clearCache(pattern)` lists every key and deletes exactly the matching
ones, leaving every non-matching key stored; concretely, over keys
`"GET /a|…"`, `"GET /b|…"`, `"POST /a|…"` the pattern `^GET \/a` removes
only the first. -/
theorem c6_clearCache_pattern :
    (∀ st : NCState, (clearCache none st).entries = []) ∧
    (∀ (pGen : String → Bool) (st : NCState),
      (clearCache (some pGen) st).entries
        = st.entries.filter (fun e => !(pGen e.key))) ∧
    clearCache (some testGETa)
      ⟨-1, [⟨"GET /a|q", .jnull, 1⟩, ⟨"GET /b|q", .jnull, 1⟩, ⟨"POST /a|q", .jnull, 1⟩]⟩
      = ⟨-1, [⟨"GET /b|q", .jnull, 1⟩, ⟨"POST /a|q", .jnull, 1⟩]⟩ := by
  refine ⟨fun st => rfl, ?_, by decide⟩
  intro pGen st
  unfold clearCache
  rw [clearFold_filter]
  apply List.filter_congr
  intro e he
  have hmem : (ncKeys st).contains e.key = true := by
    unfold ncKeys
    exact List.elem_eq_true_of_mem (List.mem_map_of_mem (fun e => e.key) he)
  rw [hmem, Bool.and_true]

/-! ## In-process store lemmas (for claims C4 and C9) -/

theorem find?_map_replace {k : String} {v : JVal} {ttl : Nat} :
    ∀ es : List NCEntry, es.any (fun e => e.key == k) = true →
      (es.map (fun e => if e.key == k then ⟨k, v, ttl⟩ else e)).find?
        (fun e => e.key == k) = some ⟨k, v, ttl⟩ := by
  intro es
  induction es with
  | nil => intro h; simp at h
  | cons e t ih =>
    intro h
    by_cases he : (e.key == k) = true
    · rw [List.map_cons, if_pos he]
      rw [@List.find?_cons_of_pos NCEntry (fun e => e.key == k) ⟨k, v, ttl⟩ _ (by simp)]
    · rw [List.map_cons, if_neg he]
      rw [@List.find?_cons_of_neg NCEntry (fun e => e.key == k) e _ he]
      apply ih
      rw [List.any_cons] at h
      rcases (Bool.or_eq_true _ _).mp h with h' | h'
      · exact absurd h' he
      · exact h'

theorem find?_append_new {k : String} {v : JVal} {ttl : Nat} (es : List NCEntry)
    (h : es.any (fun e => e.key == k) = false) :
    (es ++ [(⟨k, v, ttl⟩ : NCEntry)]).find? (fun e => e.key == k)
      = some (⟨k, v, ttl⟩ : NCEntry) := by
  have h1 : es.find? (fun e => e.key == k) = none := by
    rw [List.find?_eq_none]
    intro x hx
    rw [List.any_eq_false] at h
    exact h x hx
  rw [List.find?_append, h1]
  rw [@List.find?_cons_of_pos NCEntry (fun e => e.key == k) ⟨k, v, ttl⟩ [] (by simp)]
  rfl

/-- Whenever the raw `node-cache` `set` succeeds, `get` on that key
returns the freshly written value. -/
theorem ncSet_ok_get {st : NCState} {k : String} {v : JVal} {ttl : Nat} {st2 : NCState}
    (h : ncSet st k v ttl = .ok st2) : ncGet st2 k = some v := by
  unfold ncSet at h
  by_cases hfull : st.maxKeys > -1 ∧ st.maxKeys ≤ (st.entries.length : Int)
  · rw [if_pos hfull] at h; cases h
  · rw [if_neg hfull] at h
    injection h with h2
    subst h2
    unfold ncGet
    by_cases hany : st.entries.any (fun e => e.key == k) = true
    · simp only [hany, if_true]
      rw [find?_map_replace st.entries hany]
      rfl
    · rw [Bool.not_eq_true] at hany
      simp only [hany, Bool.false_eq_true, if_false]
      rw [find?_append_new st.entries hany]
      rfl

theorem evictFold_drop_aux (mk : Int) :
    ∀ (es : List NCEntry) (c : Nat), (es.map (fun e => e.key)).Nodup →
      (((es.map (fun e => e.key)).take c).foldl ncDel ⟨mk, es⟩) = ⟨mk, es.drop c⟩ := by
  intro es
  induction es with
  | nil => intro c _; cases c <;> rfl
  | cons e t ih =>
    intro c hnd
    rw [List.map_cons, List.nodup_cons] at hnd
    cases c with
    | zero => rfl
    | succ c' =>
      rw [List.map_cons, List.take_succ_cons, List.foldl_cons]
      have hdel : ncDel ⟨mk, e :: t⟩ e.key = (⟨mk, t⟩ : NCState) := by
        unfold ncDel
        congr 1
        rw [List.filter_cons]
        have hhead : (decide (e.key ≠ e.key)) = false := by simp
        rw [hhead]
        simp only [Bool.false_eq_true, if_false]
        apply List.filter_eq_self.mpr
        intro x hx
        simp only [ne_eq, decide_eq_true_eq]
        intro hxe
        exact hnd.1 (hxe ▸ List.mem_map_of_mem (fun e => e.key) hx)
      rw [hdel]
      rw [List.drop_succ_cons]
      exact ih c' hnd.2

/-- Deleting the first `c` listed keys of a duplicate-free store keeps
exactly the remaining entries, in order. -/
theorem evictFold_drop (st : NCState) (c : Nat) (hnd : (ncKeys st).Nodup) :
    ((ncKeys st).take c).foldl ncDel st = ⟨st.maxKeys, st.entries.drop c⟩ := by
  obtain ⟨mk, es⟩ := st
  exact evictFold_drop_aux mk es c hnd

/-- `NodeCacheAdapter.set` always succeeds and makes the written value
retrievable, for every well-formed store (duplicate-free keys, at most
`maxKeys` live entries) whose capacity is not the unreachable literal 0:
on `ECACHEFULL` the eviction frees at least one slot and the single
retry lands the write. -/
theorem nodeAdapterSet_get (st : NCState) (k : String) (v : JVal) (ttl : Nat)
    (hnd : (ncKeys st).Nodup)
    (hwf : st.maxKeys > -1 → (st.entries.length : Int) ≤ st.maxKeys)
    (hcap : st.maxKeys ≠ 0) :
    ncGet (nodeAdapterSet st k v ttl) k = some v := by
  unfold nodeAdapterSet nodeAdapterSetE
  cases hset : ncSet st k v ttl with
  | ok st2 =>
    simpa using ncSet_ok_get hset
  | error e =>
    cases e
    have hfull : st.maxKeys > -1 ∧ st.maxKeys ≤ (st.entries.length : Int) := by
      by_contra hnot
      unfold ncSet at hset
      rw [if_neg hnot] at hset
      cases hset
    have hlen1 : 1 ≤ st.entries.length := by
      have h0 : (0 : Int) < st.maxKeys := lt_of_le_of_ne (by omega) (Ne.symm hcap)
      have := hfull.2
      omega
    have hkeyslen : (ncKeys st).length = st.entries.length := List.length_map _ _
    have hdrop := evictFold_drop st (((ncKeys st).length + 9) / 10) hnd
    simp only [hkeyslen] at hdrop
    simp only []
    rw [hkeyslen, hdrop]
    have hc1 : 1 ≤ (st.entries.length + 9) / 10 := by omega
    have hc2 : (st.entries.length + 9) / 10 ≤ st.entries.length := by omega
    have hnotfull2 :
        ¬((⟨st.maxKeys, st.entries.drop ((st.entries.length + 9) / 10)⟩ : NCState).maxKeys > -1 ∧
          (⟨st.maxKeys, st.entries.drop ((st.entries.length + 9) / 10)⟩ : NCState).maxKeys ≤
            (((⟨st.maxKeys, st.entries.drop ((st.entries.length + 9) / 10)⟩ : NCState).entries.length : Int))) := by
      simp only [List.length_drop]
      rintro ⟨-, hle⟩
      have := hfull.2
      have hlt : st.entries.length - (st.entries.length + 9) / 10 < st.entries.length := by omega
      omega
    cases hset2 : ncSet ⟨st.maxKeys, st.entries.drop ((st.entries.length + 9) / 10)⟩ k v ttl with
    | ok st3 =>
      simpa using ncSet_ok_get hset2
    | error e2 =>
      exfalso
      unfold ncSet at hset2
      rw [if_neg hnotfull2] at hset2
      cases hset2

/-! ## Claim C9 (falsy cached values) -/

/-- C9: a stored falsy value (`false`, `0`, `""`, `null`) is never served
from the cache: the middleware proceeds exactly as on a miss
(`nextIntercept` on the derived key), and when the downstream handler
emits its payload the wrapped `res.json` overwrites the stored entry, so
the store afterwards holds the fresh payload under that key. -/
theorem c9_falsy_not_served (defaultTTL : Nat) (p : Option CacheConfigPatch)
    (store : String → CacheGetResult) (req : Request) (v : JVal)
    (st : NCState) (body : JVal) (ttl : Nat)
    (hm : req.method = "GET")
    (hs : store (middlewareKey defaultTTL p req) = .found (some v))
    (ht : v.truthy = false)
    (hnd : (ncKeys st).Nodup)
    (hwf : st.maxKeys > -1 → (st.entries.length : Int) ≤ st.maxKeys)
    (hcap : st.maxKeys ≠ 0) :
    middlewareRun defaultTTL p store req
      = .nextIntercept (middlewareKey defaultTTL p req) ∧
    ncGet (interceptedJsonSet st (middlewareKey defaultTTL p req) body ttl)
      (middlewareKey defaultTTL p req) = some body := by
  constructor
  · simp [middlewareRun, hm, hs, ht]
  · exact nodeAdapterSet_get st (middlewareKey defaultTTL p req) body ttl hnd hwf hcap

/-- Witness for C9: a stored `false` under the derived key is not
served, and the downstream payload overwrites it. -/
theorem c9_falsy_witness :
    middlewareRun 60 none (fun _ => .found (some (.jbool false)))
        ⟨"GET", "/anime/flag", [], [], []⟩
      = .nextIntercept (middlewareKey 60 none ⟨"GET", "/anime/flag", [], [], []⟩) ∧
    ncGet
      (interceptedJsonSet ⟨2, [⟨"other", .jnum 7, 60⟩]⟩
        (middlewareKey 60 none ⟨"GET", "/anime/flag", [], [], []⟩) (.jstr "fresh") 60)
      (middlewareKey 60 none ⟨"GET", "/anime/flag", [], [], []⟩) = some (.jstr "fresh") :=
  c9_falsy_not_served 60 none (fun _ => .found (some (.jbool false)))
    ⟨"GET", "/anime/flag", [], [], []⟩ (.jbool false)
    ⟨2, [⟨"other", .jnum 7, 60⟩]⟩ (.jstr "fresh") 60
    rfl rfl rfl (by decide) (by decide) (by decide)

/-! ## Claim C4 (capacity eviction) -/

/-- Inserting fresh, duplicate-free keys into a store with room for all
of them simply appends them in order, with no eviction. -/
theorem insertAll_fresh (ttl : Nat) :
    ∀ (ks : List (String × JVal)) (st : NCState),
      st.maxKeys > -1 →
      (st.entries.length : Int) + ks.length ≤ st.maxKeys →
      (ks.map Prod.fst).Nodup →
      (∀ kp ∈ ks, kp.1 ∉ ncKeys st) →
      insertAll st ks ttl
        = ⟨st.maxKeys, st.entries ++ ks.map (fun kp => ⟨kp.1, kp.2, ttl⟩)⟩ := by
  intro ks
  induction ks with
  | nil =>
    intro st _ _ _ _
    obtain ⟨mk, es⟩ := st
    simp [insertAll]
  | cons kp t ih =>
    intro st hgt hle hnd hfresh
    rw [List.map_cons, List.nodup_cons] at hnd
    have hnotfull : ¬(st.maxKeys > -1 ∧ st.maxKeys ≤ (st.entries.length : Int)) := by
      rintro ⟨-, hful⟩
      simp only [List.length_cons] at hle
      push_cast at hle
      omega
    have hany : st.entries.any (fun e => e.key == kp.1) = false := by
      rw [List.any_eq_false]
      intro e he
      intro hbeq
      have hek : e.key = kp.1 := eq_of_beq hbeq
      exact hfresh kp (List.mem_cons_self kp t)
        (hek ▸ List.mem_map_of_mem (fun e => e.key) he)
    have hset : nodeAdapterSet st kp.1 kp.2 ttl
        = ⟨st.maxKeys, st.entries ++ [⟨kp.1, kp.2, ttl⟩]⟩ := by
      unfold nodeAdapterSet nodeAdapterSetE ncSet
      rw [if_neg hnotfull]
      simp only [hany, Bool.false_eq_true, if_false]
    unfold insertAll
    rw [List.foldl_cons]
    have hres := ih ⟨st.maxKeys, st.entries ++ [⟨kp.1, kp.2, ttl⟩]⟩ hgt
      (by simp only [List.length_append, List.length_cons, List.length_nil] at hle ⊢
          push_cast at hle ⊢
          omega)
      hnd.2
      (by intro kp' hkp' hmem
          unfold ncKeys at hmem
          rw [List.map_append] at hmem
          rcases List.mem_append.mp hmem with hold | hnew
          · exact hfresh kp' (List.mem_cons_of_mem kp hkp') hold
          · simp only [List.map_cons, List.map_nil, List.mem_singleton] at hnew
            exact hnd.1 (hnew ▸ List.mem_map_of_mem Prod.fst hkp'))
    unfold insertAll at hres
    show List.foldl (fun s kpx => nodeAdapterSet s kpx.1 kpx.2 ttl)
      (nodeAdapterSet st kp.1 kp.2 ttl) t = _
    rw [hset, hres]
    rw [List.map_cons, List.append_assoc]
    rfl

/-- A `NodeCacheAdapter.set` of a fresh key on a full, duplicate-free
store evicts the first `⌈n/10⌉` listed keys and lands the retried write
at the end. -/
theorem nodeAdapterSet_full (st : NCState) (k : String) (v : JVal) (ttl : Nat)
    (hnd : (ncKeys st).Nodup)
    (hfull : st.maxKeys > -1 ∧ st.maxKeys ≤ (st.entries.length : Int))
    (hanyf : st.entries.any (fun e => e.key == k) = false)
    (hrefit : ((st.entries.length - (st.entries.length + 9) / 10 : Nat) : Int) < st.maxKeys) :
    nodeAdapterSet st k v ttl
      = ⟨st.maxKeys,
          st.entries.drop ((st.entries.length + 9) / 10) ++ [⟨k, v, ttl⟩]⟩ := by
  have hset1 : ncSet st k v ttl = .error .ecachefull := by
    unfold ncSet
    rw [if_pos hfull]
  unfold nodeAdapterSet nodeAdapterSetE
  rw [hset1]
  simp only []
  have hkeyslen : (ncKeys st).length = st.entries.length := List.length_map _ _
  have hdrop := evictFold_drop st (((ncKeys st).length + 9) / 10) hnd
  simp only [hkeyslen] at hdrop
  rw [hkeyslen, hdrop]
  have hnotfull2 :
      ¬((⟨st.maxKeys, st.entries.drop ((st.entries.length + 9) / 10)⟩ : NCState).maxKeys > -1 ∧
        (⟨st.maxKeys, st.entries.drop ((st.entries.length + 9) / 10)⟩ : NCState).maxKeys ≤
          (((⟨st.maxKeys, st.entries.drop ((st.entries.length + 9) / 10)⟩ : NCState).entries.length : Int))) := by
    simp only [List.length_drop]
    rintro ⟨-, hle⟩
    omega
  have hany2 : (st.entries.drop ((st.entries.length + 9) / 10)).any
      (fun e => e.key == k) = false := by
    rw [List.any_eq_false]
    intro e he
    rw [List.any_eq_false] at hanyf
    exact hanyf e (List.drop_subset _ _ he)
  unfold ncSet
  rw [if_neg hnotfull2]
  simp only [hany2, Bool.false_eq_true, if_false]

/-- C4: `NodeCacheAdapter.set` never raises (`nodeAdapterSetE` is always
`.ok`); with `maxKeys = N ≥ 1`, inserting `N+1` distinct keys into an
empty store leaves exactly `N + 1 - ⌈N/10⌉ ≤ N` keys (one `ECACHEFULL`,
`⌈N/10⌉ ≥ 1` evictions, one successful retry), and the newest key is
present. -/
theorem c4_capacity_eviction (N : Nat) (ks : List (String × JVal)) (ttl : Nat)
    (hN : 0 < N) (hlen : ks.length = N + 1) (hnd : (ks.map Prod.fst).Nodup) :
    (∀ (st : NCState) (k : String) (v : JVal) (t2 : Nat),
      (nodeAdapterSetE st k v t2).isOk = true) ∧
    (insertAll ⟨(N : Int), []⟩ ks ttl).entries.length = N + 1 - (N + 9) / 10 ∧
    (insertAll ⟨(N : Int), []⟩ ks ttl).entries.length ≤ N ∧
    (∀ kl, ks.getLast? = some kl →
      kl.1 ∈ ncKeys (insertAll ⟨(N : Int), []⟩ ks ttl)) := by
  have hne : ks ≠ [] := by
    intro h
    rw [h] at hlen
    simp at hlen
  obtain ⟨front, klast, hks⟩ : ∃ front klast, ks = front ++ [klast] :=
    ⟨ks.dropLast, ks.getLast hne, (List.dropLast_append_getLast hne).symm⟩
  subst hks
  have hfrontlen : front.length = N := by
    rw [List.length_append, List.length_singleton] at hlen
    omega
  rw [List.map_append] at hnd
  rw [List.nodup_append] at hnd
  have hnd1 : (front.map Prod.fst).Nodup := hnd.1
  have hdisj : klast.1 ∉ front.map Prod.fst := by
    intro hmem
    exact hnd.2.2 hmem (by simp)
  have hmid := insertAll_fresh ttl front ⟨(N : Int), []⟩
    (by show (N : Int) > -1; omega)
    (by show ((([] : List NCEntry).length : Int) + front.length ≤ (N : Int))
        simp only [List.length_nil, hfrontlen]
        push_cast
        omega)
    hnd1
    (by intro kp _ hmem; simp [ncKeys] at hmem)
  have hc1 : 1 ≤ (N + 9) / 10 := by omega
  have hc2 : (N + 9) / 10 ≤ N := by omega
  have hmidkeys : ncKeys ⟨(N : Int), ([] : List NCEntry) ++
      front.map (fun kp => (⟨kp.1, kp.2, ttl⟩ : NCEntry))⟩ = front.map Prod.fst := by
    unfold ncKeys
    simp only [List.nil_append, List.map_map]
    rfl
  have hmidany : (([] : List NCEntry) ++
      front.map (fun kp => (⟨kp.1, kp.2, ttl⟩ : NCEntry))).any
      (fun e => e.key == klast.1) = false := by
    rw [List.any_eq_false]
    intro e he
    simp only [List.nil_append] at he
    obtain ⟨kp, hkp, rfl⟩ := List.mem_map.mp he
    intro hbeq
    exact hdisj ((eq_of_beq hbeq) ▸ List.mem_map_of_mem Prod.fst hkp)
  have hfin : insertAll ⟨(N : Int), []⟩ (front ++ [klast]) ttl
      = nodeAdapterSet ⟨(N : Int), ([] : List NCEntry) ++
          front.map (fun kp => (⟨kp.1, kp.2, ttl⟩ : NCEntry))⟩ klast.1 klast.2 ttl := by
    unfold insertAll
    rw [List.foldl_append]
    unfold insertAll at hmid
    rw [hmid]
    rfl
  have hmidlen : (([] : List NCEntry) ++
      front.map (fun kp => (⟨kp.1, kp.2, ttl⟩ : NCEntry))).length = N := by
    simp [hfrontlen]
  have hfull := nodeAdapterSet_full
    ⟨(N : Int), ([] : List NCEntry) ++ front.map (fun kp => (⟨kp.1, kp.2, ttl⟩ : NCEntry))⟩
    klast.1 klast.2 ttl
    (by rw [hmidkeys]; exact hnd1)
    (by refine ⟨?_, ?_⟩
        · show (N : Int) > -1
          omega
        · show (N : Int) ≤ (((([] : List NCEntry) ++
            front.map (fun kp => (⟨kp.1, kp.2, ttl⟩ : NCEntry))).length : Nat) : Int)
          rw [hmidlen])
    hmidany
    (by show ((((([] : List NCEntry) ++
          front.map (fun kp => (⟨kp.1, kp.2, ttl⟩ : NCEntry))).length -
          ((([] : List NCEntry) ++
            front.map (fun kp => (⟨kp.1, kp.2, ttl⟩ : NCEntry))).length + 9) / 10 : Nat) : Int)
          < (N : Int))
        rw [hmidlen]
        have hlt : N - (N + 9) / 10 < N := by omega
        omega)
  rw [hfin, hfull]
  simp only [hmidlen]
  refine ⟨?_, ?_, ?_, ?_⟩
  · intro st k v t2
    unfold nodeAdapterSetE
    cases h1 : ncSet st k v t2 with
    | ok st2 => rfl
    | error e =>
      cases e
      simp only []
      cases h2 : ncSet (((ncKeys st).take (((ncKeys st).length + 9) / 10)).foldl ncDel st)
          k v t2 with
      | ok st2 => rfl
      | error e2 => rfl
  · simp only [List.length_append, List.length_drop, List.length_singleton, List.nil_append,
      List.length_map, hfrontlen]
    omega
  · simp only [List.length_append, List.length_drop, List.length_singleton, List.nil_append,
      List.length_map, hfrontlen]
    omega
  · intro kl hkl
    rw [List.getLast?_concat] at hkl
    injection hkl with hkl
    subst hkl
    unfold ncKeys
    simp

/-- Witness for C4 at `N = 2` and three distinct keys. -/
theorem c4_capacity_witness :
    (insertAll ⟨(2 : Int), []⟩ [("k1", .jnull), ("k2", .jnull), ("k3", .jnull)] 60).entries.length
        = 2 + 1 - (2 + 9) / 10 ∧
    (insertAll ⟨(2 : Int), []⟩ [("k1", .jnull), ("k2", .jnull), ("k3", .jnull)] 60).entries.length
        ≤ 2 ∧
    "k3" ∈ ncKeys (insertAll ⟨(2 : Int), []⟩
      [("k1", .jnull), ("k2", .jnull), ("k3", .jnull)] 60) := by
  have h := c4_capacity_eviction 2 [("k1", .jnull), ("k2", .jnull), ("k3", .jnull)] 60
    (by decide) (by decide) (by decide)
  exact ⟨h.2.1, h.2.2.1, h.2.2.2 ("k3", .jnull) (by decide)⟩

end AnimeApi
